import Mathlib

/-!
# Verification of django-transmeta's field expansion and fallback resolution

This file gives a shallow embedding of `transmeta/__init__.py` and settles the
stated properties about it.  The embedding keeps the source's names where Lean
allows it:

* `get_real_fieldname`, `canonical_fieldname`, `default_value_getter`,
  `default_value_setter` embed the module-level functions of the same names;
* `trans_field` embeds the body of the per-language loop in
  `TransMeta.__new__` (lines 184-198 of the source);
* `expand_fields` / `transmeta_new` embed the `Meta.translate` processing of
  `TransMeta.__new__`;
* `inherit_translatable` embeds the no-`translate` inheritance branch
  (lines 160-170).

Python attribute namespaces are modelled as maps `String → Option SchemaAttr`
(a Python dict), records as association lists of attribute values, and Python
truthiness as `PyVal.truthy`.  Code that can raise returns `Except Unit _`.
-/

namespace Transmeta

/-- A Python runtime value, as far as the accessors inspect one: the accessors
only ever test truthiness and pass values through.  Strings, integers,
booleans and `None` cover every case exercised by the getter/setter. -/
inductive PyVal where
  | none
  | str (s : String)
  | int (n : Int)
  | bool (b : Bool)
deriving DecidableEq, Repr

/-- Python truthiness of a value (`if value:`). -/
def PyVal.truthy : PyVal → Bool
  | .none => false
  | .str s => !(s == "")
  | .int n => !(n == 0)
  | .bool b => b

/-- Whether a value is a Python string. -/
def PyVal.isStr : PyVal → Bool
  | .str _ => true
  | _ => false

/-- Python's `lang.replace('-', '_')`: every hyphen becomes an underscore
(character-wise, which is exactly what a single-character replace does). -/
def normalize_lang (lang : String) : String :=
  String.mk (lang.data.map fun c => if c = '-' then '_' else c)

/-- Python's `s[:2]` on a string: the first two characters. -/
def py_take2 (s : String) : String :=
  String.mk (s.data.take 2)

/-- Source lines 13-16: `'%s_%s' % (field, lang.replace('-', '_'))`.
(The `lang=None` default merely substitutes the current language; all callers
in this development pass the language explicitly.) -/
def get_real_fieldname (field lang : String) : String :=
  field ++ "_" ++ normalize_lang lang

/-- A record (model instance): its attribute dictionary plus the
`_meta.default_language_field` attribute name, when the Meta declared one. -/
structure Record where
  attrs : List (String × PyVal)
  defaultLanguageField : Option String
deriving DecidableEq, Repr

/-- `getattr(record, n)` as a partial lookup: `none` models the attribute
being absent (so that plain `getattr` raises and `getattr(..., None)` yields
`None`). -/
def Record.getPy (r : Record) (n : String) : Option PyVal :=
  (r.attrs.find? (fun p => p.1 = n)).map (·.2)

/-- `setattr(record, n, v)`. -/
def Record.setPy (r : Record) (n : String) (v : PyVal) : Record :=
  { r with attrs :=
      if r.attrs.any (fun p => p.1 = n) then
        r.attrs.map (fun p => if p.1 = n then (n, v) else p)
      else
        r.attrs ++ [(n, v)] }

/-- Source lines 66-71 (and 101-106): resolve the per-record default language.
The `try` block reads the attribute named by `_meta.default_language_field`
and falls back to `fallback_language()` if the `_meta` attribute is missing,
the record attribute is missing, or the value is falsy.  A truthy value that
is not a string makes the subsequent `attname(default_language)` call raise
(`.replace` on a non-string), which the bare `except` does not cover. -/
def resolved_default_language (r : Record) (fb : String) : Except Unit String :=
  match r.defaultLanguageField with
  | Option.none => .ok fb
  | Option.some dlf =>
    match r.getPy dlf with
    | Option.none => .ok fb
    | Option.some v =>
      if v.truthy then
        match v with
        | .str s => .ok s
        | _ => .error ()
      else .ok fb

/-- Source lines 55-81: the generated getter.  `cur` is `get_language()` and
`fb` is `fallback_language()`.  The final `if language: return
getattr(self, attname(language))` uses the two-argument `getattr`, which
raises `AttributeError` when the attribute is absent; an empty `language`
falls off the end of the function, returning Python `None`. -/
def default_value_getter (field cur fb : String) (r : Record) : Except Unit PyVal :=
  let g3 := fun l => (r.getPy (get_real_fieldname field l)).getD PyVal.none
  let finish := fun (language : String) =>
    if language = "" then Except.ok PyVal.none
    else
      match r.getPy (get_real_fieldname field language) with
      | Option.some v => Except.ok v
      | Option.none => Except.error ()
  if (g3 cur).truthy then finish cur
  else if (g3 (py_take2 cur)).truthy then finish (py_take2 cur)
  else
    match resolved_default_language r fb with
    | .error e => .error e
    | .ok dl => if (g3 dl).truthy then finish dl else finish (py_take2 dl)

/-- Source lines 90-116: the generated setter.  Targets are chosen by
`hasattr`; `if language: setattr(...)` skips the write when no target was
selected (or when the selected language is the empty string). -/
def default_value_setter (field cur fb : String) (r : Record) (value : PyVal) :
    Except Unit Record :=
  let hasF := fun l => (r.getPy (get_real_fieldname field l)).isSome
  let finish := fun (language : Option String) =>
    match language with
    | Option.some l =>
      if l = "" then Except.ok r
      else Except.ok (r.setPy (get_real_fieldname field l) value)
    | Option.none => Except.ok r
  if hasF cur then finish (Option.some cur)
  else if hasF (py_take2 cur) then finish (Option.some (py_take2 cur))
  else
    match resolved_default_language r fb with
    | .error e => .error e
    | .ok dl =>
      if hasF dl then finish (Option.some dl)
      else if hasF (py_take2 dl) then finish (Option.some (py_take2 dl))
      else finish Option.none

/-- Well-formedness of a record's language configuration: if the designated
default-language attribute holds a truthy value, that value is a string (in
the source schema it is declared as a `CharField`). -/
def Record.langWF (r : Record) : Bool :=
  match r.defaultLanguageField with
  | Option.none => true
  | Option.some dlf =>
    match r.getPy dlf with
    | Option.none => true
    | Option.some v => !v.truthy || v.isStr

/-- Modelled from the spec (§4.3 step 3): the default language used by the
resolution chain — the record's designated default-language attribute when
the schema declares one and it holds a (truthy, string) value, else the
process fallback language. -/
def claimed_default_language (r : Record) (fb : String) : String :=
  match r.defaultLanguageField with
  | Option.none => fb
  | Option.some dlf =>
    match r.getPy dlf with
    | Option.some (.str s) => if s = "" then fb else s
    | _ => fb

/-- Modelled from the spec (§4.3): "primary subtag of the active language
(substring before any region separator)" — the part of the code before the
first hyphen. -/
def primary_subtag (l : String) : String :=
  String.mk (l.data.takeWhile (fun c => c ≠ '-'))

/-- Modelled from the spec: the claimed get-resolution (C1 as stated):
first non-empty value among the active language, the active language's
primary subtag (part before the region separator), the default language and
its primary subtag; otherwise an absent/empty value, never an error. -/
def spec_get_claimed (field cur fb : String) (r : Record) : Except Unit PyVal :=
  let v := fun l => (r.getPy (get_real_fieldname field l)).getD PyVal.none
  if (v cur).truthy then .ok (v cur)
  else if (v (primary_subtag cur)).truthy then .ok (v (primary_subtag cur))
  else
    let dl := claimed_default_language r fb
    if (v dl).truthy then .ok (v dl)
    else if (v (primary_subtag dl)).truthy then .ok (v (primary_subtag dl))
    else .ok PyVal.none

/-- Modelled from the amended claim: the same resolution chain but with the
code's two-character truncation in place of the primary subtag, and with the
code's final step: after the default language's field is found empty, the
value of the truncated default language's concrete field is returned whether
empty or not, and an error is raised when that field does not exist. -/
def spec_get_amended (field cur fb : String) (r : Record) : Except Unit PyVal :=
  let v := fun l => (r.getPy (get_real_fieldname field l)).getD PyVal.none
  if (v cur).truthy then .ok (v cur)
  else if (v (py_take2 cur)).truthy then .ok (v (py_take2 cur))
  else
    let dl := claimed_default_language r fb
    if (v dl).truthy then .ok (v dl)
    else
      match r.getPy (get_real_fieldname field (py_take2 dl)) with
      | Option.some w => .ok w
      | Option.none => .error ()

/-- Modelled from the spec: the claimed set-resolution (C2 as stated): write
into the first concrete field of the chain (active, its primary subtag,
default, its primary subtag) that exists on the record; else leave the
record unchanged. -/
def spec_set_claimed (field cur fb : String) (r : Record) (value : PyVal) : Record :=
  let hasF := fun l => (r.getPy (get_real_fieldname field l)).isSome
  let dl := claimed_default_language r fb
  if hasF cur then r.setPy (get_real_fieldname field cur) value
  else if hasF (primary_subtag cur) then
    r.setPy (get_real_fieldname field (primary_subtag cur)) value
  else if hasF dl then r.setPy (get_real_fieldname field dl) value
  else if hasF (primary_subtag dl) then
    r.setPy (get_real_fieldname field (primary_subtag dl)) value
  else r

/-- Modelled from the amended claim: the set-resolution chain with the code's
two-character truncation in place of the primary subtag. -/
def spec_set_amended (field cur fb : String) (r : Record) (value : PyVal) : Record :=
  let hasF := fun l => (r.getPy (get_real_fieldname field l)).isSome
  let dl := claimed_default_language r fb
  if hasF cur then r.setPy (get_real_fieldname field cur) value
  else if hasF (py_take2 cur) then
    r.setPy (get_real_fieldname field (py_take2 cur)) value
  else if hasF dl then r.setPy (get_real_fieldname field dl) value
  else if hasF (py_take2 dl) then
    r.setPy (get_real_fieldname field (py_take2 dl)) value
  else r

/-- A record with a value stored only in the concrete field of language
`as`, used against the active language `ast` (whose primary subtag is `ast`
but whose two-character truncation is `as`). -/
def recReg : Record :=
  { attrs := [("title_as", PyVal.str "X")], defaultLanguageField := Option.none }

/-- A record on which both the truncation field `title_as` and the default
language field `title_en` exist (both unset). -/
def recSet : Record :=
  { attrs := [("title_as", PyVal.none), ("title_en", PyVal.none)],
    defaultLanguageField := Option.none }

/-- A record whose default-language attribute names a language (`it`) that
has no concrete field on the record. -/
def recRaise : Record :=
  { attrs := [("default_lang", PyVal.str "it"), ("title_es", PyVal.none),
              ("title_fr", PyVal.none), ("title_en", PyVal.none)],
    defaultLanguageField := Option.some "default_lang" }

/-- A record with the fallback value `Bonjour` stored for `fr` only. -/
def recFr : Record :=
  { attrs := [("title_fr", PyVal.str "Bonjour")], defaultLanguageField := Option.none }

/-- A record storing an empty string for `fr-ca` and `Bonjour` for `fr`. -/
def recFalsy : Record :=
  { attrs := [("title_fr_ca", PyVal.str ""), ("title_fr", PyVal.str "Bonjour")],
    defaultLanguageField := Option.none }

/-- A record with a single concrete field `title_en` holding `Hi`. -/
def recEn : Record :=
  { attrs := [("title_en", PyVal.str "Hi")], defaultLanguageField := Option.none }

/-- A field declaration, as far as `TransMeta` inspects one: the `null` and
`blank` flags, whether `default` is something other than `NOT_PROVIDED`,
the `verbose_name` (the empty string standing for an unset/falsy one), the
attribute name the host system later assigns (`db_field.name`), and the
back-reference `original_fieldname` that transmeta adds. -/
structure Field where
  null : Bool
  blank : Bool
  default_provided : Bool
  verbose_name : String
  name : String
  original_fieldname : Option String := Option.none
deriving DecidableEq, Repr

/-- Source lines 184-198, the body of the per-language loop of
`TransMeta.__new__`: copy the declared field, set `original_fieldname`,
relax `null` (unless a default is provided) and `blank` when the language is
not the default language, and append the parenthesized language code to a
truthy verbose name when enabled. -/
def trans_field (original_attr : Field) (field lang_code default_language : String)
    (translate_verbose_names : Bool) : Field :=
  let a0 := { original_attr with original_fieldname := Option.some field }
  let a1 :=
    if lang_code ≠ default_language then
      let b0 :=
        if !a0.null && !a0.default_provided then { a0 with null := true } else a0
      if !b0.blank then { b0 with blank := true } else b0
    else a0
  if a1.verbose_name ≠ "" ∧ translate_verbose_names = true then
    { a1 with verbose_name := a1.verbose_name ++ " (" ++ lang_code ++ ")" }
  else a1

/-- Source lines 28-31: `getattr(db_field, 'original_fieldname', db_field.name)`. -/
def canonical_fieldname (db_field : Field) : String :=
  db_field.original_fieldname.getD db_field.name

/-- An entry of the class namespace (`attrs`), as far as `TransMeta`
distinguishes entries: a field declaration, the accessor property installed
under a canonical name, or anything else. -/
inductive SchemaAttr where
  | field (f : Field)
  | prop (field : String)
  | other
deriving DecidableEq, Repr

/-- The class namespace: a Python dict from attribute names to entries. -/
abbrev Attrs := String → Option SchemaAttr

/-- Dict assignment `attrs[k] = v`. -/
def aset (a : Attrs) (k : String) (v : SchemaAttr) : Attrs :=
  fun q => if q = k then Option.some v else a q

/-- Dict deletion `del attrs[k]`. -/
def adel (a : Attrs) (k : String) : Attrs :=
  fun q => if q = k then Option.none else a q

/-- The two declaration-time failures — both `ImproperlyConfigured` in the
source, distinguished by their messages: the `translate` marker not being a
tuple (line 173), and a listed name not being a declared field (line 180). -/
inductive TransError where
  | configError
  | fieldNotFound
deriving DecidableEq, Repr

/-- Source lines 177-200, one iteration of `for field in fields`: check the
name currently maps to a field declaration (else raise), emit one
per-language clone under its `get_real_fieldname`, then delete the
canonical entry and install the accessor property under it. -/
def expand_field (langs : List String) (default_language : String)
    (translate_verbose_names : Bool) (attrs : Attrs) (field : String) :
    Except TransError Attrs :=
  match attrs field with
  | Option.some (SchemaAttr.field original_attr) =>
    let attrs1 := langs.foldl
      (fun a lang_code =>
        aset a (get_real_fieldname field lang_code)
          (SchemaAttr.field
            (trans_field original_attr field lang_code default_language
              translate_verbose_names)))
      attrs
    .ok (aset (adel attrs1 field) field (SchemaAttr.prop field))
  | _ => .error .fieldNotFound

/-- The `for field in fields` loop, aborting on the first failure. -/
def expand_fields (langs : List String) (default_language : String)
    (translate_verbose_names : Bool) : Attrs → List String → Except TransError Attrs
  | attrs, [] => .ok attrs
  | attrs, f :: fs =>
    match expand_field langs default_language translate_verbose_names attrs f with
    | .error e => .error e
    | .ok a1 => expand_fields langs default_language translate_verbose_names a1 fs

/-- The `Meta.translate` marker: a tuple of names, a list of names (any
non-tuple fails the `isinstance(fields, tuple)` check on line 172), or
absent. -/
inductive Marker where
  | tupleM (names : List String)
  | listM (names : List String)
  | absent

/-- A base class as the inheritance branch inspects it: whether it has a
`_meta`, whether that `_meta` is abstract, and its
`_meta.translatable_fields`, when present. -/
structure Base where
  has_meta : Bool
  abstract : Bool
  translatable_fields : Option (List String)
deriving DecidableEq, Repr

/-- Source lines 160-170: for classes without their own `translate`, extend
a fresh list with `base._meta.translatable_fields` of every abstract base
that has a `_meta`, in base order. -/
def inherit_translatable (bases : List Base) : List String :=
  (bases.filter (fun b => b.has_meta && b.abstract)).foldl
    (fun acc b =>
      match b.translatable_fields with
      | Option.some tf => acc ++ tf
      | Option.none => acc)
    []

/-- Source lines 152-214, the parts the claims are about: `TransMeta.__new__`
returning the transformed namespace and the recorded
`_meta.translatable_fields`. -/
def transmeta_new (marker : Marker) (bases : List Base) (attrs : Attrs)
    (langs : List String) (default_language : String)
    (translate_verbose_names : Bool) :
    Except TransError (Attrs × List String) :=
  match marker with
  | .absent => .ok (attrs, inherit_translatable bases)
  | .listM _ => .error .configError
  | .tupleM fields =>
    match expand_fields langs default_language translate_verbose_names attrs fields with
    | .error e => .error e
    | .ok attrs2 => .ok (attrs2, fields)

/-- A field declaration with Python object identity of its mutable `choices`
attribute made explicit: `choicesRef` is a reference into a heap of lists. -/
structure FieldRef where
  null : Bool
  blank : Bool
  default_provided : Bool
  verbose_name : String
  choicesRef : Nat
  original_fieldname : Option String := Option.none
deriving DecidableEq, Repr

/-- `copy.copy(original_attr)` (line 187): a new object whose attribute
values are the same objects — in particular the same `choices` reference.
(The era's field class defines `__deepcopy__` but no `__copy__`, so
`copy.copy` is the default shallow copy.) -/
def copy_copy (f : FieldRef) : FieldRef := f

/-- The per-language loop body of lines 184-198 over reference-carrying
fields, with the `copy.copy` call explicit. -/
def trans_field_ref (original_attr : FieldRef)
    (field lang_code default_language : String)
    (translate_verbose_names : Bool) : FieldRef :=
  let a0 := { copy_copy original_attr with original_fieldname := Option.some field }
  let a1 :=
    if lang_code ≠ default_language then
      let b0 :=
        if !a0.null && !a0.default_provided then { a0 with null := true } else a0
      if !b0.blank then { b0 with blank := true } else b0
    else a0
  if a1.verbose_name ≠ "" ∧ translate_verbose_names = true then
    { a1 with verbose_name := a1.verbose_name ++ " (" ++ lang_code ++ ")" }
  else a1

/-- Read the choices list an object references. -/
def heap_get (h : List (List String)) (ref : Nat) : List String :=
  h.getD ref []

/-- Mutate in place the choices list at a reference (e.g. `choices.append`). -/
def heap_set (h : List (List String)) (ref : Nat) (v : List String) :
    List (List String) :=
  h.set ref v

/-- A plain required declaration named `title` with a verbose name. -/
def f0 : Field :=
  { null := false, blank := false, default_provided := false,
    verbose_name := "Title", name := "title" }

/-- A namespace declaring exactly the field `title`. -/
def attrs0 : Attrs :=
  fun k => if k = "title" then Option.some (SchemaAttr.field f0) else Option.none

/-- An abstract base with `_meta.translatable_fields = ('title',)`. -/
def baseAbs : Base :=
  { has_meta := true, abstract := true, translatable_fields := Option.some ["title"] }

/-- A reference-carrying declaration whose choices list lives at heap cell 0. -/
def fref0 : FieldRef :=
  { null := false, blank := false, default_provided := false,
    verbose_name := "", choicesRef := 0 }

theorem resolved_eq_claimed (r : Record) (fb : String) (h : r.langWF = true) :
    resolved_default_language r fb = .ok (claimed_default_language r fb) := by
  cases hd : r.defaultLanguageField with
  | none => simp [resolved_default_language, claimed_default_language, hd]
  | some dlf =>
    cases hv : r.getPy dlf with
    | none => simp [resolved_default_language, claimed_default_language, hd, hv]
    | some v =>
      have hwf : !v.truthy || v.isStr := by
        simpa [Record.langWF, hd, hv] using h
      cases v with
      | str s =>
        by_cases hs : s = "" <;>
          simp [resolved_default_language, claimed_default_language, hd, hv,
            PyVal.truthy, hs]
      | none =>
        simp [resolved_default_language, claimed_default_language, hd, hv,
          PyVal.truthy]
      | int n =>
        simp [PyVal.truthy, PyVal.isStr] at hwf
        simp [resolved_default_language, claimed_default_language, hd, hv,
          PyVal.truthy, hwf]
      | bool b =>
        simp [PyVal.truthy, PyVal.isStr] at hwf
        subst hwf
        simp [resolved_default_language, claimed_default_language, hd, hv,
          PyVal.truthy]

theorem py_take2_ne_empty (s : String) (h : s ≠ "") : py_take2 s ≠ "" := by
  intro heq
  apply h
  have hd : (s.data.take 2) = ([] : List Char) := congrArg String.data heq
  have hnil : s.data = [] := by
    cases hs : s.data with
    | nil => rfl
    | cons a t =>
      rw [hs] at hd
      simp at hd
  cases s with
  | mk data => exact congrArg String.mk hnil

theorem claimed_ne_empty (r : Record) (fb : String) (hfb : fb ≠ "") :
    claimed_default_language r fb ≠ "" := by
  cases hd : r.defaultLanguageField with
  | none => simpa [claimed_default_language, hd] using hfb
  | some dlf =>
    cases hv : r.getPy dlf with
    | none => simpa [claimed_default_language, hd, hv] using hfb
    | some v =>
      cases v with
      | str s =>
        by_cases hs : s = "" <;>
          simp [claimed_default_language, hd, hv, hs, hfb]
      | none => simpa [claimed_default_language, hd, hv] using hfb
      | int n => simpa [claimed_default_language, hd, hv] using hfb
      | bool b => simpa [claimed_default_language, hd, hv] using hfb

theorem truthy_getD_some (o : Option PyVal)
    (h : (o.getD PyVal.none).truthy = true) :
    ∃ v, o = Option.some v ∧ v.truthy = true := by
  cases o with
  | none => simp [PyVal.truthy] at h
  | some v => exact ⟨v, rfl, h⟩

/-- **C1** (corrected). The claim's resolution chain uses the primary
subtag — the part of the active language before the region separator — but
the code truncates to the first two characters (`current_language[:2]`,
line 63).  With active language `ast` (primary subtag `ast`, truncation
`as`) and a value stored only under `title_as`, the claim requires an
absent/empty result while the code returns the stored value. -/
theorem c1_counterexample :
    default_value_getter "title" "ast" "en" recReg = Except.ok (PyVal.str "X") ∧
    spec_get_claimed "title" "ast" "en" recReg = Except.ok PyVal.none ∧
    PyVal.str "X" ≠ PyVal.none := by
  refine ⟨by rfl, by rfl, by decide⟩

/-- **C1** (amended). For every record whose default-language attribute is
well formed, every nonempty active-language code and nonempty fallback code,
the getter resolves in this order, returning the first non-empty value: the
active language's concrete field; the concrete field of the first two
characters of the active language; the default language's concrete field
(default language: the record's designated default-language attribute when
declared and truthy, else the process fallback); and finally the value —
empty or not — of the concrete field of the first two characters of the
default language, raising an attribute error when that last field does not
exist on the record. -/
theorem c1_amended (field cur fb : String) (r : Record)
    (hWF : r.langWF = true) (hcur : cur ≠ "") (hfb : fb ≠ "") :
    default_value_getter field cur fb r = spec_get_amended field cur fb r := by
  have hdl := resolved_eq_claimed r fb hWF
  have hdlne : claimed_default_language r fb ≠ "" := claimed_ne_empty r fb hfb
  unfold default_value_getter spec_get_amended
  rw [hdl]
  by_cases h1 : ((r.getPy (get_real_fieldname field cur)).getD PyVal.none).truthy
  · obtain ⟨v, hv, hvt⟩ := truthy_getD_some _ h1
    simp [h1, hv, hvt, hcur]
  · by_cases h2 :
      ((r.getPy (get_real_fieldname field (py_take2 cur))).getD PyVal.none).truthy
    · obtain ⟨v, hv, hvt⟩ := truthy_getD_some _ h2
      simp [h1, h2, hv, hvt, py_take2_ne_empty cur hcur]
    · by_cases h3 :
        ((r.getPy (get_real_fieldname field
          (claimed_default_language r fb))).getD PyVal.none).truthy
      · obtain ⟨v, hv, hvt⟩ := truthy_getD_some _ h3
        simp [h1, h2, h3, hv, hvt, hdlne]
      · simp [h1, h2, h3, py_take2_ne_empty _ hdlne]

/-- Witness for `c1_amended`: active language `fr-ca` with `title_fr` set to
`Bonjour` resolves, by two-character truncation, to `Bonjour`. -/
theorem c1_amended_witness :
    default_value_getter "title" "fr-ca" "en" recFr =
      spec_get_amended "title" "fr-ca" "en" recFr ∧
    default_value_getter "title" "fr-ca" "en" recFr = Except.ok (PyVal.str "Bonjour") :=
  ⟨c1_amended "title" "fr-ca" "en" recFr (by rfl) (by decide) (by decide), by rfl⟩

/-- **C2** (corrected). The setter's chain also truncates to two characters
instead of using the primary subtag: with active language `ast` (primary
subtag `ast`), no `title_ast` attribute, but `title_as` and `title_en`
present, the claim directs the write to the default language's `title_en`,
while the code writes to `title_as`. -/
theorem c2_counterexample :
    default_value_setter "title" "ast" "en" recSet (PyVal.str "V") =
      Except.ok (Record.setPy recSet "title_as" (PyVal.str "V")) ∧
    spec_set_claimed "title" "ast" "en" recSet (PyVal.str "V") =
      Record.setPy recSet "title_en" (PyVal.str "V") ∧
    Record.setPy recSet "title_as" (PyVal.str "V") ≠
      Record.setPy recSet "title_en" (PyVal.str "V") :=
  ⟨by rfl, by rfl, by decide⟩

/-- **C2** (amended). For every well-formed record, nonempty active-language
code, nonempty fallback code and every value, the setter writes the value
into the first concrete field that exists on the record among: the active
language, the first two characters of the active language, the default
language, and the first two characters of the default language; when none
exists the write is a silent no-op leaving the record unchanged, and no
error is raised. -/
theorem c2_amended (field cur fb : String) (r : Record) (value : PyVal)
    (hWF : r.langWF = true) (hcur : cur ≠ "") (hfb : fb ≠ "") :
    default_value_setter field cur fb r value =
      Except.ok (spec_set_amended field cur fb r value) := by
  have hdl := resolved_eq_claimed r fb hWF
  have hdlne : claimed_default_language r fb ≠ "" := claimed_ne_empty r fb hfb
  unfold default_value_setter spec_set_amended
  rw [hdl]
  by_cases h1 : (r.getPy (get_real_fieldname field cur)).isSome
  · simp [h1, hcur]
  · by_cases h2 : (r.getPy (get_real_fieldname field (py_take2 cur))).isSome
    · simp [h1, h2, py_take2_ne_empty cur hcur]
    · by_cases h3 :
        (r.getPy (get_real_fieldname field (claimed_default_language r fb))).isSome
      · simp [h1, h2, h3, hdlne]
      · by_cases h4 : (r.getPy (get_real_fieldname field
          (py_take2 (claimed_default_language r fb)))).isSome
        · simp [h1, h2, h3, h4, py_take2_ne_empty _ hdlne]
        · simp [h1, h2, h3, h4]

/-- Witness for `c2_amended`: writing `Yo` through the accessor with active
language `en` lands in the existing `title_en`. -/
theorem c2_amended_witness :
    default_value_setter "title" "en" "en" recEn (PyVal.str "Yo") =
      Except.ok (spec_set_amended "title" "en" "en" recEn (PyVal.str "Yo")) ∧
    default_value_setter "title" "en" "en" recEn (PyVal.str "Yo") =
      Except.ok { attrs := [("title_en", PyVal.str "Yo")],
                  defaultLanguageField := Option.none } :=
  ⟨c2_amended "title" "en" "en" recEn (PyVal.str "Yo") (by rfl) (by decide) (by decide),
   by rfl⟩

theorem setter_never_raises (field cur fb : String) (r : Record) (value : PyVal)
    (hWF : r.langWF = true) :
    ∃ r2, default_value_setter field cur fb r value = Except.ok r2 := by
  have hdl := resolved_eq_claimed r fb hWF
  unfold default_value_setter
  rw [hdl]
  by_cases h1 : (r.getPy (get_real_fieldname field cur)).isSome
  · simp only [h1, if_true]
    split <;> simp
  · by_cases h2 : (r.getPy (get_real_fieldname field (py_take2 cur))).isSome
    · simp only [h1, h2, if_true, Bool.false_eq_true, if_false]
      split <;> simp
    · by_cases h3 :
        (r.getPy (get_real_fieldname field (claimed_default_language r fb))).isSome
      · simp only [h1, h2, h3, if_true, Bool.false_eq_true, if_false]
        split <;> simp
      · by_cases h4 : (r.getPy (get_real_fieldname field
          (py_take2 (claimed_default_language r fb)))).isSome
        · simp only [h1, h2, h3, h4, if_true, Bool.false_eq_true, if_false]
          split <;> simp
        · simp [h1, h2, h3, h4]

/-- **C5** (corrected). The accessors are not error-free: with the record's
default-language attribute set to `it`, a language with no concrete field,
and every configured concrete field empty, the getter raises an attribute
error (it reads `attname(default_language[:2])` with plain `getattr`,
line 79, without checking existence). -/
theorem c5_counterexample :
    default_value_getter "title" "es" "en" recRaise = Except.error () := by rfl

/-- **C5** (amended). For every well-formed record and nonempty fallback
code: the setter never raises (it writes or silently discards); the getter
raises exactly when the whole chain up to the default language is empty and
the concrete field named after the first two characters of the default
language does not exist on the record — in every other state it returns a
value or an absent/empty result. -/
theorem c5_amended (field cur fb : String) (r : Record) (value : PyVal)
    (hWF : r.langWF = true) (hfb : fb ≠ "") :
    (∃ r2, default_value_setter field cur fb r value = Except.ok r2) ∧
    (default_value_getter field cur fb r = Except.error () ↔
      (((r.getPy (get_real_fieldname field cur)).getD PyVal.none).truthy = false ∧
       ((r.getPy (get_real_fieldname field (py_take2 cur))).getD PyVal.none).truthy
          = false ∧
       ((r.getPy (get_real_fieldname field
          (claimed_default_language r fb))).getD PyVal.none).truthy = false ∧
       r.getPy (get_real_fieldname field (py_take2 (claimed_default_language r fb)))
          = Option.none)) := by
  refine ⟨setter_never_raises field cur fb r value hWF, ?_⟩
  have hdl := resolved_eq_claimed r fb hWF
  have hdlne : claimed_default_language r fb ≠ "" := claimed_ne_empty r fb hfb
  unfold default_value_getter
  rw [hdl]
  by_cases h1 : ((r.getPy (get_real_fieldname field cur)).getD PyVal.none).truthy
  · obtain ⟨v, hv, hvt⟩ := truthy_getD_some _ h1
    by_cases hc : cur = ""
    · subst hc
      simp [h1, hv, hvt]
    · simp [h1, hv, hvt, hc]
  · by_cases h2 :
      ((r.getPy (get_real_fieldname field (py_take2 cur))).getD PyVal.none).truthy
    · by_cases hc : cur = ""
      · rw [hc] at h1 h2
        rw [show py_take2 "" = "" from rfl] at h2
        exact absurd h2 h1
      · obtain ⟨v, hv, hvt⟩ := truthy_getD_some _ h2
        simp [h1, h2, hv, hvt, py_take2_ne_empty cur hc]
    · by_cases h3 :
        ((r.getPy (get_real_fieldname field
          (claimed_default_language r fb))).getD PyVal.none).truthy
      · obtain ⟨v, hv, hvt⟩ := truthy_getD_some _ h3
        simp [h1, h2, h3, hv, hvt, hdlne]
      · cases hx : r.getPy (get_real_fieldname field
          (py_take2 (claimed_default_language r fb))) <;>
          simp [h1, h2, h3, hx, py_take2_ne_empty _ hdlne]

/-- Witness for `c5_amended`: with `title_en = "Hi"` the setter succeeds and
the getter does not raise. -/
theorem c5_amended_witness :
    (∃ r2, default_value_setter "title" "en" "en" recEn (PyVal.str "Yo")
        = Except.ok r2) ∧
    default_value_getter "title" "en" "en" recEn ≠ Except.error () := by
  have h := c5_amended "title" "en" "en" recEn (PyVal.str "Yo") (by rfl) (by decide)
  refine ⟨h.1, fun hcontra => ?_⟩
  rw [h.2] at hcontra
  exact absurd hcontra (by decide)

/-- **C10** (confirmed). The getter decides "non-empty" by Python truthiness:
when the active language's concrete field holds a falsy value and a later
language of the chain (two-character truncation of the active language, the
default language, or its truncation) holds a truthy value, the getter
returns a truthy value — the stored falsy value is skipped, never returned. -/
theorem c10_truthiness (field cur fb : String) (r : Record) (v : PyVal)
    (hWF : r.langWF = true) (hfb : fb ≠ "")
    (hv : r.getPy (get_real_fieldname field cur) = Option.some v)
    (hfalsy : v.truthy = false)
    (hlater :
      ((r.getPy (get_real_fieldname field (py_take2 cur))).getD PyVal.none).truthy
          = true ∨
      ((r.getPy (get_real_fieldname field
          (claimed_default_language r fb))).getD PyVal.none).truthy = true ∨
      ((r.getPy (get_real_fieldname field
          (py_take2 (claimed_default_language r fb)))).getD PyVal.none).truthy
          = true) :
    ∃ w, default_value_getter field cur fb r = Except.ok w ∧ w.truthy = true := by
  have hdl := resolved_eq_claimed r fb hWF
  have hdlne : claimed_default_language r fb ≠ "" := claimed_ne_empty r fb hfb
  have h1 : ((r.getPy (get_real_fieldname field cur)).getD PyVal.none).truthy = false := by
    rw [hv]
    exact hfalsy
  unfold default_value_getter
  rw [hdl]
  by_cases h2 :
    ((r.getPy (get_real_fieldname field (py_take2 cur))).getD PyVal.none).truthy
  · by_cases hc : cur = ""
    · rw [hc] at h1 h2
      rw [show py_take2 "" = "" from rfl] at h2
      rw [h1] at h2
      cases h2
    · obtain ⟨w, hw, hwt⟩ := truthy_getD_some _ h2
      refine ⟨w, ?_, hwt⟩
      simp [h1, h2, hw, hwt, py_take2_ne_empty cur hc]
  · by_cases h3 :
      ((r.getPy (get_real_fieldname field
        (claimed_default_language r fb))).getD PyVal.none).truthy
    · obtain ⟨w, hw, hwt⟩ := truthy_getD_some _ h3
      refine ⟨w, ?_, hwt⟩
      simp [h1, h2, h3, hw, hwt, hdlne]
    · have h4 : ((r.getPy (get_real_fieldname field
        (py_take2 (claimed_default_language r fb)))).getD PyVal.none).truthy = true := by
        rcases hlater with h | h | h
        · rw [h] at h2
          cases h2 rfl
        · rw [h] at h3
          cases h3 rfl
        · exact h
      obtain ⟨w, hw, hwt⟩ := truthy_getD_some _ h4
      refine ⟨w, ?_, hwt⟩
      simp [h1, h2, h3, hw, hwt, py_take2_ne_empty _ hdlne]

/-- Witness for `c10_truthiness`: an empty string deliberately stored under
`title_fr_ca` is skipped in favour of the truthy `title_fr`. -/
theorem c10_witness :
    ∃ w, default_value_getter "title" "fr-ca" "en" recFalsy = Except.ok w ∧
      w.truthy = true :=
  c10_truthiness "title" "fr-ca" "en" recFalsy (PyVal.str "") (by rfl) (by decide)
    (by rfl) (by rfl) (Or.inl (by rfl))

/-- **C8** (confirmed). Every concrete field generated from a logical field
`F` carries `original_fieldname = F`, and `canonical_fieldname` recovers
exactly `F` through that back-reference — whatever name string the concrete
field is later given, so no string parsing is involved. -/
theorem c8_reverse (original_attr : Field)
    (field lang_code default_language n : String) (translate_verbose_names : Bool) :
    canonical_fieldname
      { trans_field original_attr field lang_code default_language
          translate_verbose_names with name := n } = field := by
  have h2 : (trans_field original_attr field lang_code default_language
      translate_verbose_names).original_fieldname = Option.some field := by
    simp only [trans_field]
    split_ifs <;> rfl
  unfold canonical_fieldname
  simp [h2]

theorem trans_field_null (o : Field) (f lc dl : String) (tvn : Bool) :
    (trans_field o f lc dl tvn).null =
      if lc = dl then o.null else (o.null || !o.default_provided) := by
  unfold trans_field
  by_cases h : lc = dl
  · simp only [h, ne_eq, not_true_eq_false, if_false, if_pos]
    split_ifs <;> rfl
  · simp only [ne_eq, h, not_false_eq_true, if_true, if_neg h]
    cases hn : o.null <;> cases hd : o.default_provided <;>
      split_ifs <;> simp_all

theorem trans_field_blank (o : Field) (f lc dl : String) (tvn : Bool) :
    (trans_field o f lc dl tvn).blank =
      if lc = dl then o.blank else true := by
  unfold trans_field
  by_cases h : lc = dl
  · simp only [h, ne_eq, not_true_eq_false, if_false, if_pos]
    split_ifs <;> rfl
  · simp only [ne_eq, h, not_false_eq_true, if_true, if_neg h]
    cases hb : o.blank <;> split_ifs <;> simp_all

/-- **C3** (confirmed). For every configured language `L` other than the
default language, the generated concrete field has `blank` forced to true
and, unless the declaration provides an explicit default value, `null`
forced to true; the concrete field generated for the default (fallback)
language preserves the original `null` and `blank` exactly. -/
theorem c3_constraints (original_attr : Field) (field default_language : String)
    (translate_verbose_names : Bool) (langs : List String) (L : String)
    (hL : L ∈ langs) (hne : L ≠ default_language) :
    ((trans_field original_attr field L default_language
        translate_verbose_names).blank = true ∧
     (original_attr.default_provided = false →
       (trans_field original_attr field L default_language
          translate_verbose_names).null = true)) ∧
    ((trans_field original_attr field default_language default_language
        translate_verbose_names).null = original_attr.null ∧
     (trans_field original_attr field default_language default_language
        translate_verbose_names).blank = original_attr.blank) := by
  refine ⟨⟨?_, ?_⟩, ?_, ?_⟩
  · rw [trans_field_blank, if_neg hne]
  · intro hdp
    rw [trans_field_null, if_neg hne, hdp]
    simp
  · rw [trans_field_null, if_pos rfl]
  · rw [trans_field_blank, if_pos rfl]

/-- Witness for `c3_constraints`: a required, non-nullable `title` over
languages `en`, `fr` with fallback `en`. -/
theorem c3_constraints_witness :
    ((trans_field f0 "title" "fr" "en" true).blank = true ∧
     (f0.default_provided = false →
       (trans_field f0 "title" "fr" "en" true).null = true)) ∧
    ((trans_field f0 "title" "en" "en" true).null = f0.null ∧
     (trans_field f0 "title" "en" "en" true).blank = f0.blank) :=
  c3_constraints f0 "title" "en" true ["en", "fr"] "fr" (by decide) (by decide)

/-- **C9** (corrected). `copy.copy` (line 187) is a shallow copy: the
per-language clones all reference the original's `choices` object.
Mutating the choices of the `fr` clone changes what the `en` clone's
choices reference contains. -/
theorem c9_counterexample :
    (trans_field_ref fref0 "title" "fr" "en" true).choicesRef =
      (trans_field_ref fref0 "title" "en" "en" true).choicesRef ∧
    heap_get
      (heap_set [["a"]]
        (trans_field_ref fref0 "title" "fr" "en" true).choicesRef ["a", "b"])
      (trans_field_ref fref0 "title" "en" "en" true).choicesRef = ["a", "b"] ∧
    heap_get [["a"]] (trans_field_ref fref0 "title" "en" "en" true).choicesRef
      = ["a"] :=
  ⟨by rfl, by rfl, by rfl⟩

/-- **C9** (amended). The per-language clones are shallow copies: top-level
flags are per-clone, but every clone shares the original's mutable
sub-structures — each clone's `choices` reference equals the original's, so
a nested mutation through one clone is visible through all the others. -/
theorem c9_amended (original_attr : FieldRef)
    (field lang_code default_language : String) (translate_verbose_names : Bool) :
    (trans_field_ref original_attr field lang_code default_language
        translate_verbose_names).choicesRef = original_attr.choicesRef := by
  simp only [trans_field_ref, copy_copy]
  split_ifs <;> rfl

theorem foldl_extend (l : List Base) :
    ∀ acc : List String,
      l.foldl (fun acc b =>
        match b.translatable_fields with
        | Option.some tf => acc ++ tf
        | Option.none => acc) acc
      = acc ++ (l.map (fun b => b.translatable_fields.getD [])).flatten := by
  induction l with
  | nil => intro acc; simp
  | cons b t ih =>
    intro acc
    cases htf : b.translatable_fields with
    | none => simp [htf, ih]
    | some tf => simp [htf, ih]

theorem inherit_eq_join (bases : List Base) :
    inherit_translatable bases =
      ((bases.filter (fun b => b.has_meta && b.abstract)).map
        (fun b => b.translatable_fields.getD [])).flatten := by
  unfold inherit_translatable
  rw [foldl_extend]
  simp

/-- **C7** (corrected). The inheritance branch concatenates the abstract
bases' `translatable_fields` without deduplication: two abstract bases each
declaring `title` yield metadata in which `title` appears twice, not once. -/
theorem c7_counterexample :
    (inherit_translatable [baseAbs, baseAbs]).count "title" = 2 ∧
    inherit_translatable [baseAbs, baseAbs] ≠ ["title"] := by decide

/-- **C7** (amended). For every type that declares no `translate` of its
own, the recorded metadata is the concatenation, in base order and with
duplicates preserved, of the `translatable_fields` of the direct bases that
have an abstract `_meta` (bases without the attribute contribute nothing),
and the namespace is returned unchanged — no expansion is performed. -/
theorem c7_amended (bases : List Base) (attrs : Attrs) (langs : List String)
    (default_language : String) (translate_verbose_names : Bool) :
    transmeta_new Marker.absent bases attrs langs default_language
        translate_verbose_names
      = Except.ok (attrs,
          ((bases.filter (fun b => b.has_meta && b.abstract)).map
            (fun b => b.translatable_fields.getD [])).flatten) := by
  unfold transmeta_new
  rw [inherit_eq_join]

theorem get_real_fieldname_ne_self (field L : String) :
    get_real_fieldname field L ≠ field := by
  intro h
  have hlen := congrArg String.length h
  rw [get_real_fieldname, String.length_append, String.length_append] at hlen
  have h1 : ("_" : String).length = 1 := rfl
  rw [h1] at hlen
  omega

theorem foldl_aset_frame (keyf : String → String) (g : String → SchemaAttr) :
    ∀ (l : List String) (a : Attrs) (k : String),
      (∀ x ∈ l, keyf x ≠ k) →
      l.foldl (fun acc x => aset acc (keyf x) (g x)) a k = a k := by
  intro l
  induction l with
  | nil => intro a k _; rfl
  | cons x t ih =>
    intro a k hne
    simp only [List.foldl_cons]
    rw [ih _ k (fun y hy => hne y (List.mem_cons_of_mem x hy))]
    unfold aset
    rw [if_neg (fun hk => hne x (List.mem_cons_self x t) hk.symm)]

theorem foldl_aset_unique (keyf : String → String) (g : String → SchemaAttr) :
    ∀ (l : List String) (a : Attrs) (k : String) (v : SchemaAttr),
      (∃ x ∈ l, keyf x = k) →
      (∀ x ∈ l, keyf x = k → g x = v) →
      l.foldl (fun acc x => aset acc (keyf x) (g x)) a k = Option.some v := by
  intro l
  induction l with
  | nil =>
    rintro a k v ⟨x, hx, _⟩ _
    cases hx
  | cons x t ih =>
    intro a k v hex hval
    simp only [List.foldl_cons]
    by_cases hxt : ∃ y ∈ t, keyf y = k
    · exact ih _ k v hxt (fun y hy hk => hval y (List.mem_cons_of_mem x hy) hk)
    · rcases hex with ⟨y, hy, hk⟩
      have hxk : keyf x = k := by
        rcases List.mem_cons.mp hy with h | h
        · rw [← h]; exact hk
        · exact absurd ⟨y, h, hk⟩ hxt
      rw [foldl_aset_frame keyf g t _ k (fun z hz hkz => hxt ⟨z, hz, hkz⟩)]
      unfold aset
      rw [if_pos hxk.symm, hval x (List.mem_cons_self x t) hxk]

theorem expand_field_ok (langs : List String) (dl : String) (tvn : Bool)
    (attrs : Attrs) (field : String) (fd : Field)
    (hfd : attrs field = Option.some (SchemaAttr.field fd))
    (hninj : ∀ L1 ∈ langs, ∀ L2 ∈ langs,
      get_real_fieldname field L1 = get_real_fieldname field L2 → L1 = L2) :
    ∃ a1, expand_field langs dl tvn attrs field = .ok a1 ∧
      a1 field = Option.some (SchemaAttr.prop field) ∧
      (∀ L ∈ langs, a1 (get_real_fieldname field L) =
        Option.some (SchemaAttr.field (trans_field fd field L dl tvn))) ∧
      (∀ k, k ≠ field → (∀ L ∈ langs, k ≠ get_real_fieldname field L) →
        a1 k = attrs k) := by
  unfold expand_field
  rw [hfd]
  refine ⟨_, rfl, ?_, ?_, ?_⟩
  · unfold aset
    rw [if_pos rfl]
  · intro L hL
    have hne : get_real_fieldname field L ≠ field := get_real_fieldname_ne_self field L
    unfold aset adel
    rw [if_neg hne, if_neg hne]
    exact foldl_aset_unique (fun lc => get_real_fieldname field lc)
      (fun lc => SchemaAttr.field (trans_field fd field lc dl tvn)) langs attrs
      (get_real_fieldname field L)
      (SchemaAttr.field (trans_field fd field L dl tvn))
      ⟨L, hL, rfl⟩
      (fun y hy hk => by rw [hninj y hy L hL hk])
  · intro k hkf hkg
    unfold aset adel
    rw [if_neg hkf, if_neg hkf]
    exact foldl_aset_frame (fun lc => get_real_fieldname field lc)
      (fun lc => SchemaAttr.field (trans_field fd field lc dl tvn)) langs attrs k
      (fun x hx hEq => hkg x hx hEq.symm)

theorem expand_field_error (langs : List String) (dl : String) (tvn : Bool)
    (attrs : Attrs) (field : String) (e : TransError)
    (h : expand_field langs dl tvn attrs field = .error e) :
    e = TransError.fieldNotFound := by
  unfold expand_field at h
  cases ha : attrs field with
  | none =>
    rw [ha] at h
    cases h
    rfl
  | some v =>
    rw [ha] at h
    cases v with
    | field fd => cases h
    | prop p =>
      cases h
      rfl
    | other =>
      cases h
      rfl

theorem expand_fields_missing (langs : List String) (dl : String) (tvn : Bool) :
    ∀ (fs : List String) (attrs : Attrs) (F : String),
      F ∈ fs →
      (∀ fd, attrs F ≠ Option.some (SchemaAttr.field fd)) →
      (∀ f2 ∈ fs, ∀ L ∈ langs, F ≠ get_real_fieldname f2 L) →
      expand_fields langs dl tvn attrs fs = .error .fieldNotFound := by
  intro fs
  induction fs with
  | nil =>
    intro attrs F hF _ _
    cases hF
  | cons f t ih =>
    intro attrs F hF hnf hgen
    show (match expand_field langs dl tvn attrs f with
          | .error e => .error e
          | .ok a1 => expand_fields langs dl tvn a1 t)
        = Except.error TransError.fieldNotFound
    by_cases hf : F = f
    · subst hf
      have hef : expand_field langs dl tvn attrs F = .error .fieldNotFound := by
        unfold expand_field
        cases ha : attrs F with
        | none => rfl
        | some v =>
          cases v with
          | field fd => exact absurd ha (hnf fd)
          | prop p => rfl
          | other => rfl
      rw [hef]
    · have hFt : F ∈ t := by
        rcases List.mem_cons.mp hF with h | h
        · exact absurd h hf
        · exact h
      cases he : expand_field langs dl tvn attrs f with
      | error e =>
        rw [expand_field_error langs dl tvn attrs f e he]
      | ok a1 =>
        apply ih a1 F hFt ?_ ?_
        · intro fd hcontra
          have ha1 : a1 F = attrs F := by
            unfold expand_field at he
            cases ha : attrs f with
            | none =>
              rw [ha] at he
              cases he
            | some v =>
              rw [ha] at he
              cases v with
              | field fd0 =>
                cases he
                unfold aset adel
                rw [if_neg hf, if_neg hf]
                exact foldl_aset_frame (fun lc => get_real_fieldname f lc)
                  (fun lc => SchemaAttr.field (trans_field fd0 f lc dl tvn)) langs attrs F
                  (fun L hL hEq =>
                    hgen f (List.mem_cons_self f t) L hL hEq.symm)
              | prop p => cases he
              | other => cases he
          rw [ha1] at hcontra
          exact hnf fd hcontra
        · intro f2 hf2 L hL
          exact hgen f2 (List.mem_cons_of_mem f hf2) L hL

theorem expand_fields_ok (langs : List String) (dl : String) (tvn : Bool) :
    ∀ (fs : List String) (attrs : Attrs),
      fs.Nodup →
      (∀ F ∈ fs, ∃ fd, attrs F = Option.some (SchemaAttr.field fd)) →
      (∀ F ∈ fs, ∀ L1 ∈ langs, ∀ L2 ∈ langs,
        get_real_fieldname F L1 = get_real_fieldname F L2 → L1 = L2) →
      (∀ F1 ∈ fs, ∀ F2 ∈ fs, ∀ L ∈ langs, get_real_fieldname F2 L ≠ F1) →
      (∀ F1 ∈ fs, ∀ F2 ∈ fs, ∀ L1 ∈ langs, ∀ L2 ∈ langs,
        F1 ≠ F2 → get_real_fieldname F1 L1 ≠ get_real_fieldname F2 L2) →
      ∃ attrs2, expand_fields langs dl tvn attrs fs = .ok attrs2 ∧
        (∀ F ∈ fs, ∀ L ∈ langs, ∀ fd,
          attrs F = Option.some (SchemaAttr.field fd) →
          attrs2 (get_real_fieldname F L) =
            Option.some (SchemaAttr.field (trans_field fd F L dl tvn))) ∧
        (∀ F ∈ fs, attrs2 F = Option.some (SchemaAttr.prop F)) ∧
        (∀ k, (∀ F ∈ fs, k ≠ F) →
          (∀ F ∈ fs, ∀ L ∈ langs, k ≠ get_real_fieldname F L) →
          attrs2 k = attrs k) := by
  intro fs
  induction fs with
  | nil =>
    intro attrs _ _ _ _ _
    exact ⟨attrs, rfl, by simp, by simp, fun k _ _ => rfl⟩
  | cons f t ih =>
    intro attrs hnd hdecl hninj hsep hcross
    obtain ⟨fd, hfd⟩ := hdecl f (List.mem_cons_self f t)
    obtain ⟨a1, he1, h1f, h1L, h1fr⟩ :=
      expand_field_ok langs dl tvn attrs f fd hfd
        (fun L1 hL1 L2 hL2 =>
          hninj f (List.mem_cons_self f t) L1 hL1 L2 hL2)
    have hfnot : f ∉ t := (List.nodup_cons.mp hnd).1
    have hnd2 : t.Nodup := (List.nodup_cons.mp hnd).2
    have ha1eq : ∀ F ∈ t, a1 F = attrs F := by
      intro F hF
      refine h1fr F (fun hEq => hfnot (hEq ▸ hF)) ?_
      intro L hL
      exact (hsep F (List.mem_cons_of_mem f hF) f (List.mem_cons_self f t) L hL).symm
    have hdecl2 : ∀ F ∈ t, ∃ fd2, a1 F = Option.some (SchemaAttr.field fd2) := by
      intro F hF
      obtain ⟨fd2, hfd2⟩ := hdecl F (List.mem_cons_of_mem f hF)
      exact ⟨fd2, (ha1eq F hF).trans hfd2⟩
    obtain ⟨attrs2, he2, h2L, h2f, h2fr⟩ :=
      ih a1 hnd2 hdecl2
        (fun F hF => hninj F (List.mem_cons_of_mem f hF))
        (fun F1 h1 F2 h2 =>
          hsep F1 (List.mem_cons_of_mem f h1) F2 (List.mem_cons_of_mem f h2))
        (fun F1 h1 F2 h2 =>
          hcross F1 (List.mem_cons_of_mem f h1) F2 (List.mem_cons_of_mem f h2))
    refine ⟨attrs2, ?_, ?_, ?_, ?_⟩
    · show (match expand_field langs dl tvn attrs f with
            | Except.error e => Except.error e
            | Except.ok a1 => expand_fields langs dl tvn a1 t) = Except.ok attrs2
      rw [he1]
      exact he2
    · intro F hF L hL fd2 hfd2
      rcases List.mem_cons.mp hF with hFf | hFt
      · subst hFf
        have hfdeq : fd2 = fd := by
          have h3 := hfd.symm.trans hfd2
          injection h3 with h4
          injection h4 with h5
          exact h5.symm
        subst hfdeq
        have hframe :
            attrs2 (get_real_fieldname F L) = a1 (get_real_fieldname F L) := by
          refine h2fr (get_real_fieldname F L) ?_ ?_
          · intro F2 hF2
            exact hsep F2 (List.mem_cons_of_mem F hF2) F
              (List.mem_cons_self F t) L hL
          · intro F2 hF2 L2 hL2
            exact hcross F (List.mem_cons_self F t) F2
              (List.mem_cons_of_mem F hF2) L hL L2 hL2
              (fun hEq => hfnot (hEq ▸ hF2))
        rw [hframe]
        exact h1L L hL
      · have := h2L F hFt L hL fd2 ((ha1eq F hFt).trans hfd2)
        exact this
    · intro F hF
      rcases List.mem_cons.mp hF with hFf | hFt
      · subst hFf
        have hframe : attrs2 F = a1 F := by
          refine h2fr F ?_ ?_
          · intro F2 hF2
            exact fun hEq => hfnot (hEq ▸ hF2)
          · intro F2 hF2 L hL
            exact (hsep F (List.mem_cons_self F t) F2
              (List.mem_cons_of_mem F hF2) L hL).symm
        rw [hframe]
        exact h1f
      · exact h2f F hFt
    · intro k hk1 hk2
      rw [h2fr k (fun F hF => hk1 F (List.mem_cons_of_mem f hF))
        (fun F hF L hL => hk2 F (List.mem_cons_of_mem f hF) L hL)]
      exact h1fr k (hk1 f (List.mem_cons_self f t))
        (fun L hL => hk2 f (List.mem_cons_self f t) L hL)

/-- **C4** (confirmed, for well-formed schemas: no duplicate canonical
names, no concrete name colliding with a canonical name or with another
concrete name).  After expansion, every canonical field `F` and configured
language `L` yield exactly one concrete field, stored under
`F ++ "_" ++ normalize(L)` (hyphens replaced by underscores) and equal to
the per-language clone of `F`'s declaration; the canonical name itself maps
to the accessor property, no longer a stored field. -/
theorem c4_naming (attrs : Attrs) (fields langs : List String)
    (default_language : String) (translate_verbose_names : Bool)
    (hnd : fields.Nodup)
    (hdecl : ∀ F ∈ fields, ∃ fd, attrs F = Option.some (SchemaAttr.field fd))
    (hninj : ∀ F ∈ fields, ∀ L1 ∈ langs, ∀ L2 ∈ langs,
      get_real_fieldname F L1 = get_real_fieldname F L2 → L1 = L2)
    (hsep : ∀ F1 ∈ fields, ∀ F2 ∈ fields, ∀ L ∈ langs,
      get_real_fieldname F2 L ≠ F1)
    (hcross : ∀ F1 ∈ fields, ∀ F2 ∈ fields, ∀ L1 ∈ langs, ∀ L2 ∈ langs,
      F1 ≠ F2 → get_real_fieldname F1 L1 ≠ get_real_fieldname F2 L2)
    (F : String) (hF : F ∈ fields) (L : String) (hL : L ∈ langs)
    (fd : Field) (hfd : attrs F = Option.some (SchemaAttr.field fd)) :
    ∃ attrs2,
      expand_fields langs default_language translate_verbose_names attrs fields
        = .ok attrs2 ∧
      attrs2 (get_real_fieldname F L) =
        Option.some (SchemaAttr.field
          (trans_field fd F L default_language translate_verbose_names)) ∧
      attrs2 F = Option.some (SchemaAttr.prop F) := by
  obtain ⟨attrs2, he, hclone, hprop, _⟩ :=
    expand_fields_ok langs default_language translate_verbose_names fields attrs
      hnd hdecl hninj hsep hcross
  exact ⟨attrs2, he, hclone F hF L hL fd hfd, hprop F hF⟩

/-- Witness for `c4_naming`: the single field `title` over `en` and `fr-ca`;
the hyphenated language lands under `title_fr_ca`. -/
theorem c4_naming_witness :
    ∃ attrs2,
      expand_fields ["en", "fr-ca"] "en" true attrs0 ["title"] = .ok attrs2 ∧
      attrs2 (get_real_fieldname "title" "fr-ca") =
        Option.some (SchemaAttr.field (trans_field f0 "title" "fr-ca" "en" true)) ∧
      attrs2 "title" = Option.some (SchemaAttr.prop "title") :=
  c4_naming attrs0 ["title"] ["en", "fr-ca"] "en" true (by decide)
    (by
      intro F hF
      simp only [List.mem_singleton] at hF
      subst hF
      exact ⟨f0, rfl⟩)
    (by decide) (by decide) (by decide)
    "title" (by decide) "fr-ca" (by decide) f0 rfl

/-- **C6** (corrected). The code checks only `isinstance(fields, tuple)`, not
uniqueness: a tuple with a duplicated name passes the marker check and fails
later, while processing the second occurrence (by then the name maps to the
installed property, not a field), with the field-not-found error — not the
config error the claim requires for any non-unique sequence. -/
theorem c6_counterexample :
    transmeta_new (Marker.tupleM ["title", "title"]) [] attrs0 ["en"] "en" true
      = Except.error TransError.fieldNotFound ∧
    TransError.fieldNotFound ≠ TransError.configError :=
  ⟨by rfl, by decide⟩

/-- **C6** (amended). A non-tuple marker (in particular a plain list) raises
the config error.  A listed name that does not map to a field declaration at
the moment it is processed — in marker order, and provided no earlier listed
field generates a concrete name that shadows it — raises the field-not-found
error (a duplicated tuple entry fails the same way, its first occurrence
having been replaced by the property).  Both failures abort construction. -/
theorem c6_amended :
    (∀ (names : List String) (bases : List Base) (attrs : Attrs)
        (langs : List String) (dl : String) (tvn : Bool),
      transmeta_new (Marker.listM names) bases attrs langs dl tvn
        = Except.error TransError.configError) ∧
    (∀ (fields : List String) (bases : List Base) (attrs : Attrs)
        (langs : List String) (dl : String) (tvn : Bool) (F : String),
      F ∈ fields →
      (∀ fd, attrs F ≠ Option.some (SchemaAttr.field fd)) →
      (∀ f2 ∈ fields, ∀ L ∈ langs, F ≠ get_real_fieldname f2 L) →
      transmeta_new (Marker.tupleM fields) bases attrs langs dl tvn
        = Except.error TransError.fieldNotFound) := by
  constructor
  · intro names bases attrs langs dl tvn
    rfl
  · intro fields bases attrs langs dl tvn F hF hnf hgen
    have h := expand_fields_missing langs dl tvn fields attrs F hF hnf hgen
    show (match expand_fields langs dl tvn attrs fields with
          | .error e => .error e
          | .ok attrs2 => .ok (attrs2, fields))
        = Except.error TransError.fieldNotFound
    rw [h]

/-- Witness for `c6_amended`: a list marker raises the config error; a tuple
naming the undeclared `missing` raises the field-not-found error. -/
theorem c6_amended_witness :
    transmeta_new (Marker.listM ["title"]) [] attrs0 ["en"] "en" true
      = Except.error TransError.configError ∧
    transmeta_new (Marker.tupleM ["missing"]) [] attrs0 ["en"] "en" true
      = Except.error TransError.fieldNotFound :=
  ⟨c6_amended.1 ["title"] [] attrs0 ["en"] "en" true,
   c6_amended.2 ["missing"] [] attrs0 ["en"] "en" true "missing" (by decide)
     (by
       intro fd h
       simp [attrs0] at h)
     (by decide)⟩

end Transmeta
